import Mathlib

/-!
# Verification of the `anotherr` error-chain rendering engine

This file gives a shallow embedding, in Lean 4, of the core data model and
operations of the `StevenACoffman/anotherr` Go repository (an error-chain
construction, introspection and rendering engine forked from
`cockroachdb/errors`), and proves or refutes the frozen specification claims
about it.

Conventions of the embedding:
* Go strings and `[]byte` buffers are `List Char`;
* call-stack frames (`uintptr` program counters) are opaque `Nat` values;
* a Go `nil` error is `Option.none`;
* frame symbol resolution (performed by the Go runtime, outside this
  repository) is passed in as an explicit function argument where needed.
-/

namespace Anotherr

/-! ## Stack traces and `ElideSharedStackTraceSuffix`

A `StackTrace` mirrors `errbase.StackTrace = pkgErr.StackTrace`, an ordered
list of opaque program counters, newest frame first. -/

/-- A stack trace: opaque frames (program counters), newest first. -/
abbrev StackTrace := List Nat

/-- The index-countdown loop inside `ElideSharedStackTraceSuffix`
(format_error.go lines 620-625):
`for i, j = len(newStack)-1, len(prevStack)-1; i > 0 && j > 0; i, j = i-1, j-1
 { if newStack[i] != prevStack[j] { break } }`.
Returns the final value of `i`: the loop exits as soon as `i = 0` or `j = 0`
(condition check) or the frames at `(i, j)` differ (break). -/
def elideLoop (prevStack newStack : StackTrace) : Nat → Nat → Nat
  | 0, _ => 0
  | i, 0 => i
  | i + 1, j + 1 =>
    if newStack.getD (i + 1) 0 ≠ prevStack.getD (j + 1) 0 then i + 1
    else elideLoop prevStack newStack i j

/-- Embedding of `errbase.ElideSharedStackTraceSuffix`
(format_error.go lines 611-632): removes a suffix of `newStack` and reports
whether frames were elided. -/
def ElideSharedStackTraceSuffix (prevStack newStack : StackTrace) :
    StackTrace × Bool :=
  if prevStack.length = 0 then (newStack, false)
  else if newStack.length = 0 then (newStack, false)
  else
    let i0 := elideLoop prevStack newStack (newStack.length - 1) (prevStack.length - 1)
    let i := if i0 = 0 then 1 else i0
    (newStack.take i, decide (i < newStack.length - 1))

/-- Length of the shared oldest-frame suffix of two stacks: the number of
trailing frames on which the two stacks agree pairwise. This is the notion
used by the specification ("skipping frames that are identical pairwise"). -/
def sharedSuffixLen (prevStack newStack : StackTrace) : Nat :=
  ((newStack.reverse.zip prevStack.reverse).takeWhile
    (fun p => p.1 == p.2)).length

/-- What the specification says `ElideSharedStackTraceSuffix` does: drop
exactly the shared oldest-frame suffix from `newStack` (nothing else),
always keeping at least one frame, and flag elision exactly when at least
one frame was dropped. -/
def elideSharedStackTraceSuffixSpec (prevStack newStack : StackTrace) :
    StackTrace × Bool :=
  let keep := max (newStack.length - sharedSuffixLen prevStack newStack) 1
  (newStack.take keep, decide (keep < newStack.length))

/-- The loop value is never larger than its starting index. -/
theorem elideLoop_le (prevStack newStack : StackTrace) :
    ∀ i j, elideLoop prevStack newStack i j ≤ i := by
  intro i
  induction i with
  | zero => intro j; simp [elideLoop]
  | succ i ih =>
    intro j
    cases j with
    | zero => simp [elideLoop]
    | succ j =>
      rw [elideLoop]
      split
      · exact Nat.le_refl _
      · exact Nat.le_trans (ih j) (Nat.le_succ i)

/-- `ElideSharedStackTraceSuffix` always keeps at least one frame of a
nonempty `newStack` (supports the true part of the elision claims). -/
theorem elide_keeps_at_least_one (prevStack newStack : StackTrace)
    (h : newStack ≠ []) :
    (ElideSharedStackTraceSuffix prevStack newStack).1 ≠ [] := by
  unfold ElideSharedStackTraceSuffix
  split
  · exact h
  · split
    · exact h
    · simp only
      have hlen : 0 < newStack.length := List.length_pos.mpr h
      set i0 := elideLoop prevStack newStack (newStack.length - 1)
        (prevStack.length - 1) with hi0
      have : 0 < (if i0 = 0 then 1 else i0) := by
        split
        · exact Nat.one_pos
        · omega
      intro hc
      have := congrArg List.length hc
      simp only [List.length_take, List.length_nil] at this
      omega

end Anotherr

namespace Anotherr

/-- C1: the claim fails on the code. With `prevStack = [10, 11, 3]` and
`newStack = [1, 2, 3]` the shared oldest-frame suffix is just `[3]`
(one frame), so removing exactly that suffix would return `[1, 2]`; the
code instead returns `[1]`, also dropping frame `2`, which is not present
in `prevStack`. This contradicts the function's own documentation
("removes the suffix of newStack that's already present in prevStack"). -/
theorem elideSharedStackTraceSuffix_drops_unshared_frame :
    sharedSuffixLen [10, 11, 3] [1, 2, 3] = 1 ∧
    elideSharedStackTraceSuffixSpec [10, 11, 3] [1, 2, 3] = ([1, 2], true) ∧
    ElideSharedStackTraceSuffix [10, 11, 3] [1, 2, 3] = ([1], true) := by
  decide

/-- C2: the claim fails on the code. With `prevStack = [10, 20]` and
`newStack = [1, 2]` (no shared frames at all) the code returns `[1]` —
dropping frame `2` of `newStack` — yet reports `false`, so the returned
boolean is not "true iff at least one frame was dropped" (it is true iff
at least two frames were dropped). This contradicts the function's own
documentation ("returns true if some entries were elided"). -/
theorem elideSharedStackTraceSuffix_false_despite_drop :
    ElideSharedStackTraceSuffix [10, 20] [1, 2] = ([1], false) ∧
    (ElideSharedStackTraceSuffix [10, 20] [1, 2]).1.length <
      ([1, 2] : StackTrace).length := by
  decide

end Anotherr

namespace Anotherr

/-! ## Format entries and the single-line projection -/

/-- One per-link rendering record, mirroring `errbase.formatEntry`
(format_error.go lines 478-485). The `errType` field models the text that
Go's `%T` verb produces for the stored `err` (its concrete type name);
`head`, `details` model the byte buffers. -/
structure formatEntry where
  head : List Char := []
  details : List Char := []
  stackTrace : Option StackTrace := none
  elideShort : Bool := false
  elidedStackTrace : Bool := false
  errType : List Char := []
  deriving DecidableEq, Inhabited

/-- The `": "` separator used by the single-line projection. -/
def sepColonSpace : List Char := (": " : String).data

/-- Body of the loop in `(*state).formatSingleLineOutput`
(format_error.go lines 240-253), acting on the accumulated `finalBuf`. -/
def singleLineStep (finalBuf : List Char) (entry : formatEntry) : List Char :=
  if entry.elideShort then finalBuf
  else
    let finalBuf :=
      if 0 < finalBuf.length ∧ 0 < entry.head.length
      then finalBuf ++ sepColonSpace else finalBuf
    if entry.head.length = 0 then finalBuf
    else finalBuf ++ entry.head

/-- Embedding of `(*state).formatSingleLineOutput` (format_error.go lines
239-254). `entries` is innermost-first, as collected by `formatRecursive`;
the Go loop walks it from the last element (the outermost link) down to
the first, starting from an empty `finalBuf`. -/
def formatSingleLineOutput (entries : List formatEntry) : List Char :=
  entries.reverse.foldl singleLineStep []

/-- The heads that the specification says survive the single-line
projection: entries not flagged elide-short and with nonempty heads,
in the order given. -/
def keptHeads (l : List formatEntry) : List (List Char) :=
  (l.filter (fun e => !e.elideShort && !e.head.isEmpty)).map formatEntry.head

/-- Joining strings with the `": "` separator, as the specification words
the single-line rendering. -/
def joinColonSpace : List (List Char) → List Char
  | [] => []
  | [h] => h
  | h :: t => h ++ sepColonSpace ++ joinColonSpace t

/-- Separator-prefixed tail join: `tailJoin [h1, h2] = ": h1: h2"`. -/
def tailJoin (hs : List (List Char)) : List Char :=
  (hs.map (fun h => sepColonSpace ++ h)).flatten

theorem tailJoin_cons (h : List Char) (t : List (List Char)) :
    tailJoin (h :: t) = sepColonSpace ++ h ++ tailJoin t := by
  simp [tailJoin, List.append_assoc]

theorem joinColonSpace_cons (h : List Char) (t : List (List Char)) :
    joinColonSpace (h :: t) = h ++ tailJoin t := by
  induction t generalizing h with
  | nil => simp [joinColonSpace, tailJoin]
  | cons h2 t ih =>
    have hstep : joinColonSpace (h :: h2 :: t) =
        h ++ sepColonSpace ++ joinColonSpace (h2 :: t) := rfl
    rw [hstep, ih h2, tailJoin_cons]
    simp [List.append_assoc]

theorem singleLine_fold (l : List formatEntry) (b : List Char) :
    l.foldl singleLineStep b =
      if b = [] then joinColonSpace (keptHeads l)
      else b ++ tailJoin (keptHeads l) := by
  induction l generalizing b with
  | nil =>
    simp only [List.foldl_nil, keptHeads, List.filter_nil, List.map_nil,
      joinColonSpace, tailJoin, List.map_nil, List.flatten]
    split <;> simp_all
  | cons e l ih =>
    rw [List.foldl_cons]
    by_cases hel : e.elideShort
    · have hstep : singleLineStep b e = b := by
        simp [singleLineStep, hel]
      have hkept : keptHeads (e :: l) = keptHeads l := by
        simp [keptHeads, hel]
      rw [hstep, hkept, ih b]
    · by_cases hh : e.head = []
      · have hstep : singleLineStep b e = b := by
          simp [singleLineStep, hel, hh]
        have hkept : keptHeads (e :: l) = keptHeads l := by
          simp [keptHeads, hel, hh]
        rw [hstep, hkept, ih b]
      · have hhead : 0 < e.head.length := List.length_pos.mpr hh
        have hkept : keptHeads (e :: l) = e.head :: keptHeads l := by
          simp [keptHeads, hel, hh]
        rcases eq_or_ne b [] with hb | hb
        · have hstep : singleLineStep b e = e.head := by
            simp [singleLineStep, hel, hb, Nat.not_lt_zero,
              List.length_pos.mpr hh, Nat.pos_iff_ne_zero,
              List.length_eq_zero, hh]
          rw [hstep, ih e.head, if_neg hh, hkept, hb, if_pos rfl,
            joinColonSpace_cons]
        · have hbl : 0 < b.length := List.length_pos.mpr hb
          have hstep : singleLineStep b e = b ++ sepColonSpace ++ e.head := by
            simp [singleLineStep, hel, hbl, hhead,
              Nat.pos_iff_ne_zero, List.length_eq_zero, hh]
          have hne : b ++ sepColonSpace ++ e.head ≠ [] := by
            simp [hh]
          rw [hstep, ih _, if_neg hne, if_neg hb, hkept, tailJoin_cons]
          simp [List.append_assoc]

/-- C3: for every collected entry list (innermost-first, any length), the
single-line rendering equals the concatenation, in outermost-to-innermost
order, of the heads of entries that are not flagged elide-short and have
nonempty heads, joined by `": "` — no separator for skipped or empty-head
entries, no leading or trailing separator. -/
theorem formatSingleLineOutput_eq_joined_heads (entries : List formatEntry) :
    formatSingleLineOutput entries =
      joinColonSpace (keptHeads entries.reverse) := by
  rw [formatSingleLineOutput, singleLine_fold, if_pos rfl]

end Anotherr

namespace Anotherr

/-! ## Simple extraction: `extractPrefix` / `formatSimple` -/

/-- Go's `strings.HasSuffix(s, suf)`:
`len(s) >= len(suf) && s[len(s)-len(suf):] == suf`. -/
def hasSuffix (s suf : List Char) : Bool :=
  decide (suf.length ≤ s.length) &&
    decide (s.drop (s.length - suf.length) = suf)

theorem hasSuffix_iff (s suf : List Char) :
    hasSuffix s suf = true ↔ ∃ t, s = t ++ suf := by
  constructor
  · intro h
    simp only [hasSuffix, Bool.and_eq_true, decide_eq_true_eq] at h
    exact ⟨s.take (s.length - suf.length),
      by conv_lhs => rw [← List.take_append_drop (s.length - suf.length) s, h.2]⟩
  · rintro ⟨t, rfl⟩
    simp only [hasSuffix, Bool.and_eq_true, decide_eq_true_eq]
    refine ⟨by simp, ?_⟩
    rw [List.length_append, Nat.add_sub_cancel, List.drop_left]

theorem take_append_eq_left (t u : List Char) :
    (t ++ u).take ((t ++ u).length - u.length) = t := by
  rw [List.length_append, Nat.add_sub_cancel, List.take_left]

/-- Embedding of `errbase.extractPrefix` (format_error.go lines 419-431)
as a function of the two message strings `errMsg = err.Error()` and
`causeSuffix = cause.Error()`. (The Go identifier is `extractPrefix`.) -/
def extractPref (errMsg causeSuffix : List Char) : List Char :=
  if hasSuffix errMsg causeSuffix then
    let pref := errMsg.take (errMsg.length - causeSuffix.length)
    if hasSuffix pref sepColonSpace then pref.take (pref.length - 2)
    else []
  else []

/-- Embedding of `(*state).formatSimple` (format_error.go lines 398-411),
viewed as the text this link contributes: the extracted message prefix
against the cause's message when a cause exists, the error's own message
at the leaf. -/
def formatSimple (errMsg : List Char) (causeMsg : Option (List Char)) :
    List Char :=
  match causeMsg with
  | some c => extractPref errMsg c
  | none => errMsg

/-- C7: `extractPrefix err cause` returns `p` exactly when
`err.Error() = p ++ ": " ++ cause.Error()`, and returns the empty string
whenever the wrapper's message is not such a suffix-preserving extension
of the cause's message. -/
theorem extractPref_eq_iff (e c p : List Char) :
    extractPref e c = p ↔
      (e = p ++ sepColonSpace ++ c ∨
        (p = [] ∧ ∀ q, e ≠ q ++ sepColonSpace ++ c)) := by
  have sepLen : sepColonSpace.length = 2 := rfl
  constructor
  · intro h
    rw [extractPref] at h
    by_cases h1 : hasSuffix e c = true
    · rw [if_pos h1] at h
      obtain ⟨u, hu⟩ := (hasSuffix_iff e c).mp h1
      have hpref : e.take (e.length - c.length) = u := by
        rw [hu, take_append_eq_left]
      by_cases h2 : hasSuffix (e.take (e.length - c.length)) sepColonSpace = true
      · rw [if_pos h2] at h
        obtain ⟨t, ht⟩ := (hasSuffix_iff _ _).mp h2
        left
        have hp : p = t := by
          rw [← h, ht, ← sepLen, take_append_eq_left]
        rw [hp, hu, ← ht, hpref]
      · rw [if_neg h2] at h
        right
        refine ⟨h.symm, fun q hq => h2 ?_⟩
        have : e.take (e.length - c.length) = q ++ sepColonSpace := by
          rw [hq]; exact take_append_eq_left (q ++ sepColonSpace) c
        rw [this]
        exact (hasSuffix_iff _ _).mpr ⟨q, rfl⟩
    · rw [if_neg h1] at h
      right
      refine ⟨h.symm, fun q hq => h1 ?_⟩
      exact (hasSuffix_iff e c).mpr ⟨q ++ sepColonSpace, by rw [hq, List.append_assoc]⟩
  · rintro (rfl | ⟨rfl, hno⟩)
    · have h1 : hasSuffix (p ++ sepColonSpace ++ c) c = true :=
        (hasSuffix_iff _ _).mpr ⟨p ++ sepColonSpace, rfl⟩
      have hpref : (p ++ sepColonSpace ++ c).take
          ((p ++ sepColonSpace ++ c).length - c.length) = p ++ sepColonSpace :=
        take_append_eq_left _ _
      rw [extractPref, if_pos h1]
      simp only [hpref]
      rw [if_pos ((hasSuffix_iff _ _).mpr ⟨p, rfl⟩), ← sepLen,
        take_append_eq_left]
    · rw [extractPref]
      by_cases h1 : hasSuffix e c = true
      · rw [if_pos h1]
        obtain ⟨u, hu⟩ := (hasSuffix_iff e c).mp h1
        have hpref : e.take (e.length - c.length) = u := by
          rw [hu, take_append_eq_left]
        by_cases h2 : hasSuffix (e.take (e.length - c.length)) sepColonSpace = true
        · exfalso
          obtain ⟨t, ht⟩ := (hasSuffix_iff _ _).mp h2
          refine hno t ?_
          have hu2 : u = t ++ sepColonSpace := by rw [← hpref, ht]
          rw [hu, hu2]
        · rw [if_neg h2]
      · rw [if_neg h1]

end Anotherr

namespace Anotherr

/-! ## Verb dispatch of `formatErrorInternal` -/

/-- The dispatch outcomes of `formatErrorInternal`: the `%+v` detailed
path, the `%#v` GoString path, the single-line path (`%s`, plain `%v`,
`%x`, `%X`, `%q`), or the literal placeholder written for an unknown
verb. -/
inductive FormatPath where
  | detailed
  | goString
  | singleLine
  | placeholder (out : List Char)
  deriving DecidableEq

/-- Embedding of the verb/flag dispatch of `errbase.formatErrorInternal`
(format_error.go lines 71-148). `errType` is `some t` for a non-nil error
whose concrete type prints as `t` (the text of
`reflect.TypeOf(err).String()`), and `none` for a nil error. The guards
are the three `case` conditions of the Go `switch`, in order; the default
branch writes `"%!"`, the verb, and the parenthesized type (or `<nil>`). -/
def formatErrorInternal (errType : Option (List Char)) (verb : Char)
    (plusFlag hashFlag : Bool) : FormatPath :=
  if verb = 'v' ∧ plusFlag ∧ ¬hashFlag then .detailed
  else if verb = 'v' ∧ hashFlag then .goString
  else if verb = 's' ∨ (verb = 'v' ∧ ¬hashFlag) ∨
      (verb = 'x' ∨ verb = 'X' ∨ verb = 'q') then .singleLine
  else .placeholder
    (("%!" : String).data ++ [verb] ++ ("(" : String).data ++
      (match errType with
       | some t => t
       | none => ("<nil>" : String).data) ++ (")" : String).data)

/-- C9: for every error (nil or not, any flags) and every verb outside
the supported set `v`, `s`, `x`, `X`, `q`, `formatErrorInternal` takes the
default branch and returns normally with the visible placeholder
`"%!"` + verb + `"("` + concrete-type-name-or-`<nil>` + `")"`. -/
theorem formatErrorInternal_unsupported_verb (errType : Option (List Char))
    (verb : Char) (plusFlag hashFlag : Bool)
    (h : verb ∉ (['v', 's', 'x', 'X', 'q'] : List Char)) :
    formatErrorInternal errType verb plusFlag hashFlag =
      FormatPath.placeholder
        (("%!" : String).data ++ [verb] ++ ("(" : String).data ++
          (match errType with
           | some t => t
           | none => ("<nil>" : String).data) ++ (")" : String).data) := by
  simp only [List.mem_cons, List.not_mem_nil, or_false, not_or] at h
  obtain ⟨hv, hs, hx, hX, hq⟩ := h
  simp [formatErrorInternal, hv, hs, hx, hX, hq]

/-- Witness for C9: the unsupported verb `d` on a non-nil error of
concrete type `*fmt.wrapError` renders the placeholder
`%!d(*fmt.wrapError)`. -/
theorem formatErrorInternal_unsupported_verb_witness :
    ('d' ∉ (['v', 's', 'x', 'X', 'q'] : List Char)) ∧
    formatErrorInternal (some ("*fmt.wrapError").data) 'd' false false =
      FormatPath.placeholder ("%!d(*fmt.wrapError)").data :=
  ⟨by decide,
    by rw [formatErrorInternal_unsupported_verb (some ("*fmt.wrapError").data)
        'd' false false (by decide)]; rfl⟩

end Anotherr

namespace Anotherr

/-! ## The chain model and `Is` -/

/-- A model of a non-nil Go error value for chain walking. `id`
distinguishes distinct values (so Go's `==` identity comparison is
equality of the modelled values), `msg` is the `Error()` message text,
`isPred = some l` models a value implementing an `Is(error) bool` method
that reports a match exactly for reference values whose `id` is in `l`
(`none`: no `Is` method). A `wrap` value implements the wrapper capability
and holds its immediate cause; a `leaf` does not. -/
inductive Err where
  | leaf (id : Nat) (msg : List Char) (isPred : Option (List Nat))
  | wrap (id : Nat) (msg : List Char) (isPred : Option (List Nat))
      (cause : Err)
  deriving DecidableEq

/-- The `id` of an error value. -/
def Err.id : Err → Nat
  | .leaf i _ _ => i
  | .wrap i _ _ _ => i

/-- The modelled `Is(error) bool` capability of an error value. -/
def Err.isPred : Err → Option (List Nat)
  | .leaf _ _ p => p
  | .wrap _ _ p _ => p

/-- The immediate cause exposed by the wrapper capability, if any. -/
def Err.cause : Err → Option Err
  | .leaf _ _ _ => none
  | .wrap _ _ _ c => some c

/-- Modelled from the spec: `errbase.UnwrapOnce` is not under `src/` (only
its callers are). Per §4.3, `unwrap_once(err)` returns the immediate cause
if the value implements the wrapper capability, else absent. -/
def UnwrapOnce (e : Err) : Option Err := e.cause

/-- Embedding of `tryDelegateToIsMethod` (stack.go lines 277-283): true
exactly when the link implements `Is(error) bool` and that method reports
a match against the reference. -/
def tryDelegateToIsMethod (err reference : Err) : Bool :=
  match err.isPred with
  | none => false
  | some l => l.contains reference.id

/-- The `for c := err; c != nil; c = UnwrapOnce(c)` loop of `errors.Is`
(stack.go lines 250-259), entered at a non-nil link: return true on value
equality (`equal`, stack.go lines 273-275) or on a successful `Is`-method
delegation; otherwise continue with `UnwrapOnce`; false once the chain
ends. -/
def isLoop (ref : Err) : Err → Bool
  | .leaf i m p =>
    if Err.leaf i m p = ref then true
    else if tryDelegateToIsMethod (.leaf i m p) ref then true
    else false
  | .wrap i m p c =>
    if Err.wrap i m p c = ref then true
    else if tryDelegateToIsMethod (.wrap i m p c) ref then true
    else isLoop ref c

/-- Embedding of `errors.Is` (stack.go lines 243-270): a nil reference
matches only a nil error; otherwise walk the chain from `err`; when the
loop finishes without a match the function returns false (for both the
nil-`err` short-circuit and the final return). -/
def Is (err reference : Option Err) : Bool :=
  match reference with
  | none => decide (err = none)
  | some ref =>
    match err with
    | none => false
    | some e => isLoop ref e

/-- The links of the chain reachable by repeated unwrap from an error,
the error itself included (the specification's "Chain"). -/
def chainLinks : Err → List Err
  | .leaf i m p => [.leaf i m p]
  | .wrap i m p c => .wrap i m p c :: chainLinks c

theorem isLoop_iff (ref : Err) (e : Err) :
    isLoop ref e = true ↔
      ∃ l ∈ chainLinks e, l = ref ∨ tryDelegateToIsMethod l ref = true := by
  induction e with
  | leaf i m p =>
    simp only [isLoop, chainLinks, List.mem_singleton]
    constructor
    · intro h
      refine ⟨.leaf i m p, rfl, ?_⟩
      by_cases h1 : Err.leaf i m p = ref
      · exact Or.inl h1
      · rw [if_neg h1] at h
        by_cases h2 : tryDelegateToIsMethod (.leaf i m p) ref = true
        · exact Or.inr h2
        · simp [h2] at h
    · rintro ⟨l, rfl, hor⟩
      rcases hor with h1 | h2
      · rw [if_pos h1]
      · rw [h2]
        split <;> rfl
  | wrap i m p c ih =>
    simp only [isLoop, chainLinks, List.mem_cons]
    constructor
    · intro h
      by_cases h1 : Err.wrap i m p c = ref
      · exact ⟨_, Or.inl rfl, Or.inl h1⟩
      · rw [if_neg h1] at h
        by_cases h2 : tryDelegateToIsMethod (.wrap i m p c) ref = true
        · exact ⟨_, Or.inl rfl, Or.inr h2⟩
        · rw [if_neg h2] at h
          obtain ⟨l, hl, hor⟩ := ih.mp h
          exact ⟨l, Or.inr hl, hor⟩
    · rintro ⟨l, hl, hor⟩
      by_cases h1 : Err.wrap i m p c = ref
      · rw [if_pos h1]
      · rw [if_neg h1]
        by_cases h2 : tryDelegateToIsMethod (.wrap i m p c) ref = true
        · rw [if_pos h2]
        · rw [if_neg h2]
          rcases hl with rfl | hl
          · rcases hor with h1' | h2'
            · exact absurd h1' h1
            · exact absurd h2' h2
          · exact ih.mpr ⟨l, hl, hor⟩

/-- C5: `Is(err, nil)` is true iff `err` is nil; and for a non-nil
reference, `Is(err, reference)` is true iff some link of `err`'s unwrap
chain is identity-equal to the reference or delegates successfully to its
`Is(error) bool` method — message strings play no role beyond being part
of a link's value identity. -/
theorem Is_matches_iff (err : Option Err) (ref : Err) :
    (Is err none = true ↔ err = none) ∧
    (Is err (some ref) = true ↔
      ∃ l ∈ err.elim [] chainLinks,
        l = ref ∨ tryDelegateToIsMethod l ref = true) := by
  constructor
  · simp [Is]
  · cases err with
    | none => simp [Is]
    | some e => simpa [Is] using isLoop_iff ref e

end Anotherr

namespace Anotherr

/-! ## Special-case registry dispatch -/

/-- A model of `safeErrorPrinterFn` (format_error.go line 388): a
registered handler is a function of the link and the leaf flag.
`handled` models the returned `handled` boolean, `output` the text the
handler writes through the printer when it handles the link, and
`elideInner` models returning a nil `next` (the request to elide inner
short messages). -/
structure SpecialCase where
  handled : Err → Bool → Bool
  output : Err → Bool → List Char
  elideInner : Err → Bool → Bool

/-- Embedding of `RegisterSpecialCasePrinter` (format_error.go lines
393-396): `specialCases = append(specialCases, fn)`. -/
def RegisterSpecialCasePrinter (specialCases : List SpecialCase)
    (fn : SpecialCase) : List SpecialCase :=
  specialCases ++ [fn]

/-- The special-case loop of `formatRecursive` (format_error.go lines
284-298): try each registered handler in registration order; the first
one that reports `handled` has written its output and the loop breaks
(`printDone = true`). Returns the accepted handler's output, or `none`
when every handler declined. -/
def trySpecialCases (specialCases : List SpecialCase) (e : Err)
    (leaf : Bool) : Option (List Char) :=
  match specialCases with
  | [] => none
  | fn :: rest =>
    if fn.handled e leaf then some (fn.output e leaf)
    else trySpecialCases rest e leaf

/-- The per-link dispatch of `formatRecursive` (format_error.go lines
284-338): the special-case loop runs first; only when no handler accepted
(`!printDone`) does the capability `switch` run (Formatter /
fmt.Formatter / `formatSimple`), modelled here by the `defaultDispatch`
argument so that independence from it can be stated. -/
def formatRecursiveDispatch (specialCases : List SpecialCase)
    (defaultDispatch : Err → Bool → List Char) (e : Err) (leaf : Bool) :
    List Char :=
  match trySpecialCases specialCases e leaf with
  | some out => out
  | none => defaultDispatch e leaf

/-- C6: for a registry `before ++ fn :: after` in which every handler in
`before` declines the link and `fn` accepts it, the per-link dispatch
produces exactly `fn`'s output: the handlers in `after` never run, and
neither does any default dispatch (the result is the same for every
`defaultDispatch`, i.e. Formatter resolution, fmt-verb reflection and the
simple fallback are all bypassed). -/
theorem specialCases_first_accepting_wins
    (before after : List SpecialCase) (fn : SpecialCase) (e : Err)
    (leaf : Bool) (defaultDispatch : Err → Bool → List Char)
    (hdecl : ∀ g ∈ before, g.handled e leaf = false)
    (hacc : fn.handled e leaf = true) :
    formatRecursiveDispatch (before ++ fn :: after) defaultDispatch e leaf =
      fn.output e leaf := by
  induction before with
  | nil =>
    simp only [List.nil_append, formatRecursiveDispatch, trySpecialCases,
      hacc, if_true]
  | cons g rest ih =>
    have hg : g.handled e leaf = false := hdecl g (List.mem_cons_self g rest)
    have hrest : ∀ g2 ∈ rest, g2.handled e leaf = false := fun g2 h2 =>
      hdecl g2 (List.mem_cons_of_mem g h2)
    simp only [List.cons_append, formatRecursiveDispatch, trySpecialCases,
      hg, Bool.false_eq_true, if_false]
    exact ih hrest

/-- A handler that always declines (the X of the registry-ordering
scenario). -/
def handlerX : SpecialCase where
  handled := fun _ _ => false
  output := fun _ _ => ("X output" : String).data
  elideInner := fun _ _ => false

/-- A handler that always accepts (the Y of the registry-ordering
scenario). -/
def handlerY : SpecialCase where
  handled := fun _ _ => true
  output := fun _ _ => ("Y output" : String).data
  elideInner := fun _ _ => false

/-- Witness for C6: registering X then Y (X always declines, Y always
accepts) makes the dispatch use Y's output, for an arbitrary default
dispatch that would have produced different text. -/
theorem specialCases_first_accepting_wins_witness :
    formatRecursiveDispatch
      (RegisterSpecialCasePrinter (RegisterSpecialCasePrinter [] handlerX)
        handlerY)
      (fun _ _ => ("default output" : String).data)
      (Err.leaf 0 [] none) true = ("Y output" : String).data := by
  have hreg : RegisterSpecialCasePrinter
      (RegisterSpecialCasePrinter [] handlerX) handlerY =
      [handlerX] ++ handlerY :: [] := rfl
  rw [hreg]
  exact specialCases_first_accepting_wins [handlerX] [] handlerY
    (Err.leaf 0 [] none) true (fun _ _ => ("default output" : String).data)
    (by intro g hg; simp only [List.mem_singleton] at hg; rw [hg]; rfl) rfl

end Anotherr

namespace Anotherr

/-! ## Detailed rendering: `printEntry` and `formatEntries` -/

/-- The `"\n  | "` detail separator (format_error.go line 457). -/
def detailSep : List Char := ("\n  | " : String).data

/-- Rendering of `%+v` on a `StackTrace`, as done by `(*stack).Format`
(stack.go lines 15-26) and by `pkg/errors`: each frame on its own line,
a `"\n"` followed by the frame's `%+v` text. The text of one resolved
frame comes from runtime symbolization, which is external to the
repository, so it is supplied as the `frameText` argument. -/
def stackTraceFmt (frameText : Nat → List Char) (st : StackTrace) :
    List Char :=
  (st.map (fun pc => '\n' :: frameText pc)).flatten

/-- Embedding of `(*state).printEntry` (format_error.go lines 192-218):
write the head (space-padded unless it starts with a newline), then the
details (space-padded only when there was no head and they do not start
with a newline), then — when a stack trace is present — the
`"\n  -- stack trace:"` header, the trace with every `"\n"` replaced by
`detailSep` (`strings.ReplaceAll` on a one-character pattern is exactly a
character `flatMap`), and the `[...repeated from below...]` marker when
the trace was elided. -/
def printEntry (frameText : Nat → List Char) (entry : formatEntry) :
    List Char :=
  (if 0 < entry.head.length then
    (if entry.head.head? ≠ some '\n' then [' '] else []) ++ entry.head
   else []) ++
  (if 0 < entry.details.length then
    (if entry.head.length = 0 ∧ entry.details.head? ≠ some '\n'
     then [' '] else []) ++ entry.details
   else []) ++
  (match entry.stackTrace with
   | none => []
   | some st =>
     ("\n  -- stack trace:" : String).data ++
     ((stackTraceFmt frameText st).flatMap
       (fun c => if c = '\n' then detailSep else [c])) ++
     (if entry.elidedStackTrace
      then detailSep ++ ("[...repeated from below...]" : String).data
      else []))

/-- The text written by `fmt.Fprintf(&s.finalBuf, "\nWraps: (%d)", j)`. -/
def wrapsLabel (j : Nat) : List Char :=
  ("\nWraps: (" : String).data ++ (Nat.repr j).data ++ (")" : String).data

/-- The text written by `fmt.Fprintf(&s.finalBuf, " (%d) %T", j, err)`;
the `%T` text is the entry's modelled `errType`. -/
def typeLabel (j : Nat) (t : List Char) : List Char :=
  (" (" : String).data ++ (Nat.repr j).data ++ (") " : String).data ++ t

/-- The `Wraps:` loop of `formatEntries` (format_error.go lines 167-171):
`for i, j = len(s.entries)-2, 2; i >= 0; i, j = i-1, j+1`, writing the
label then the entry at index `i`. The recursion counts `i` down to 0. -/
def wrapsLoop (frameText : Nat → List Char) (entries : List formatEntry) :
    Nat → Nat → List Char
  | 0, j => wrapsLabel j ++ printEntry frameText (entries.getD 0 default)
  | i + 1, j =>
    wrapsLabel j ++ printEntry frameText (entries.getD (i + 1) default) ++
      wrapsLoop frameText entries i (j + 1)

/-- The `Error types:` loop of `formatEntries` (format_error.go lines
176-178): `for i, j = len(s.entries)-1, 1; i >= 0; i, j = i-1, j+1`. -/
def typesLoop (entries : List formatEntry) : Nat → Nat → List Char
  | 0, j => typeLabel j (entries.getD 0 default).errType
  | i + 1, j =>
    typeLabel j (entries.getD (i + 1) default).errType ++
      typesLoop entries i (j + 1)

/-- Embedding of `(*state).formatEntries` (format_error.go lines 153-179):
the single-line summary, `"\n(1)"` plus the outermost entry (the last one
collected), the `Wraps:` loop when at least two entries exist (otherwise
the Go loop starts at `i = -1` and does not run), and the `Error types:`
footer. `entries` is innermost-first. -/
def formatEntries (frameText : Nat → List Char)
    (entries : List formatEntry) : List Char :=
  formatSingleLineOutput entries ++ ("\n(1)" : String).data ++
    printEntry frameText (entries.getD (entries.length - 1) default) ++
    (if 2 ≤ entries.length
     then wrapsLoop frameText entries (entries.length - 2) 2
     else []) ++
    ("\nError types:" : String).data ++
    typesLoop entries (entries.length - 1) 1

/-- What the claim says the `Wraps:` block is: one `Wraps: (N)` label per
entry of the given (outermost-first) list, `N` increasing by one per
entry starting at `j`. -/
def wrapsSpec (frameText : Nat → List Char) (j : Nat) :
    List formatEntry → List Char
  | [] => []
  | e :: rest =>
    wrapsLabel j ++ printEntry frameText e ++
      wrapsSpec frameText (j + 1) rest

/-- What the claim says the type footer is: `(index) concrete-type-name`
for each entry of the given (outermost-first) list, indices increasing by
one from `j`. -/
def typesSpec (j : Nat) : List formatEntry → List Char
  | [] => []
  | e :: rest => typeLabel j e.errType ++ typesSpec (j + 1) rest

end Anotherr

namespace Anotherr

theorem wrapsLoop_eq (frameText : Nat → List Char)
    (entries : List formatEntry) :
    ∀ i, i < entries.length → ∀ j,
      wrapsLoop frameText entries i j =
        wrapsSpec frameText j ((entries.take (i + 1)).reverse) := by
  intro i
  induction i with
  | zero =>
    intro h j
    cases entries with
    | nil => simp at h
    | cons e rest =>
      simp [wrapsLoop, wrapsSpec, List.take]
  | succ i ih =>
    intro h j
    have hi : i < entries.length := Nat.lt_of_succ_lt h
    have htake : entries.take (i + 2) =
        entries.take (i + 1) ++ [entries.getD (i + 1) default] := by
      rw [List.take_succ, List.getD_eq_getElem?_getD,
        List.getElem?_eq_getElem h]
      rfl
    rw [wrapsLoop, htake, List.reverse_append, List.reverse_singleton,
      List.singleton_append, wrapsSpec, ih hi (j + 1)]

theorem typesLoop_eq (entries : List formatEntry) :
    ∀ i, i < entries.length → ∀ j,
      typesLoop entries i j =
        typesSpec j ((entries.take (i + 1)).reverse) := by
  intro i
  induction i with
  | zero =>
    intro h j
    cases entries with
    | nil => simp at h
    | cons e rest =>
      simp [typesLoop, typesSpec, List.take]
  | succ i ih =>
    intro h j
    have hi : i < entries.length := Nat.lt_of_succ_lt h
    have htake : entries.take (i + 2) =
        entries.take (i + 1) ++ [entries.getD (i + 1) default] := by
      rw [List.take_succ, List.getD_eq_getElem?_getD,
        List.getElem?_eq_getElem h]
      rfl
    rw [typesLoop, htake, List.reverse_append, List.reverse_singleton,
      List.singleton_append, typesSpec, ih hi (j + 1)]

theorem reverse_tail_eq_dropLast_reverse (l : List formatEntry)
    (h : l ≠ []) : l.reverse.tail = l.dropLast.reverse := by
  conv_lhs => rw [← List.dropLast_append_getLast h]
  rw [List.reverse_append, List.reverse_singleton, List.singleton_append,
    List.tail_cons]

end Anotherr

namespace Anotherr

/-- C4: detailed-mode rendering emits the single-line summary as header,
then the outermost entry labeled `(1)`, then each remaining entry from
second-outermost down to the leaf labeled `Wraps: (N)` with `N`
increasing by one per entry (starting at 2), and an `Error types:` footer
listing `(index) concrete-type-name` for each entry from outermost
(index 1) to leaf (index N). -/
theorem formatEntries_numbering (frameText : Nat → List Char)
    (entries : List formatEntry) (h : entries ≠ []) :
    formatEntries frameText entries =
      formatSingleLineOutput entries ++ ("\n(1)" : String).data ++
      printEntry frameText (entries.getLast h) ++
      wrapsSpec frameText 2 entries.reverse.tail ++
      ("\nError types:" : String).data ++
      typesSpec 1 entries.reverse := by
  have hlen : 0 < entries.length := List.length_pos.mpr h
  have hget : entries.getD (entries.length - 1) default =
      entries.getLast h := by
    rw [List.getD_eq_getElem?_getD, List.getElem?_eq_getElem (by omega),
      Option.getD_some, List.getLast_eq_getElem]
  have htypes : typesLoop entries (entries.length - 1) 1 =
      typesSpec 1 entries.reverse := by
    rw [typesLoop_eq entries (entries.length - 1) (by omega) 1,
      Nat.sub_add_cancel hlen, List.take_length]
  rw [formatEntries, hget, htypes]
  by_cases h2 : 2 ≤ entries.length
  · have hwraps : wrapsLoop frameText entries (entries.length - 2) 2 =
        wrapsSpec frameText 2 entries.reverse.tail := by
      have harith : entries.length - 2 + 1 = entries.length - 1 := by omega
      rw [wrapsLoop_eq frameText entries (entries.length - 2) (by omega) 2,
        reverse_tail_eq_dropLast_reverse entries h,
        List.dropLast_eq_take, harith]
    rw [if_pos h2, hwraps]
  · have h1 : entries.reverse.tail = [] := by
      apply List.eq_nil_of_length_eq_zero
      rw [List.length_tail, List.length_reverse]
      omega
    rw [if_neg h2, h1]
    simp [wrapsSpec]

end Anotherr

namespace Anotherr

/-- Frame rendering used by the C4 witness: the decimal program counter. -/
def exFrameText (pc : Nat) : List Char := (Nat.repr pc).data

/-- Leaf entry of the witness chain (innermost). -/
def exEntryLeaf : formatEntry :=
  { head := ("something went wrong" : String).data,
    errType := ("main.ErrMyError" : String).data }

/-- Middle entry of the witness chain. -/
def exEntryMid : formatEntry :=
  { head := ("error" : String).data,
    errType := ("*errutil.withPrefix" : String).data }

/-- Outermost entry of the witness chain, carrying a stack trace. -/
def exEntryOuter : formatEntry :=
  { stackTrace := some [40, 41],
    errType := ("*withstack.withStack" : String).data }

/-- Witness for C4: on a concrete 3-link chain the detailed rendering is
the header, the outermost entry at `(1)`, `Wraps: (2)` for the middle
entry, `Wraps: (3)` for the leaf, and a type footer indexing outermost,
middle and leaf types at `(1)`, `(2)`, `(3)`. -/
theorem formatEntries_numbering_witness :
    ([exEntryLeaf, exEntryMid, exEntryOuter] : List formatEntry) ≠ [] ∧
    formatEntries exFrameText [exEntryLeaf, exEntryMid, exEntryOuter] =
      formatSingleLineOutput [exEntryLeaf, exEntryMid, exEntryOuter] ++
      ("\n(1)" : String).data ++ printEntry exFrameText exEntryOuter ++
      (wrapsLabel 2 ++ printEntry exFrameText exEntryMid ++
        (wrapsLabel 3 ++ printEntry exFrameText exEntryLeaf ++ [])) ++
      ("\nError types:" : String).data ++
      (typeLabel 1 exEntryOuter.errType ++
        (typeLabel 2 exEntryMid.errType ++
          (typeLabel 3 exEntryLeaf.errType ++ []))) := by
  refine ⟨by simp, ?_⟩
  have hthm := formatEntries_numbering exFrameText
    [exEntryLeaf, exEntryMid, exEntryOuter] (by simp)
  exact hthm

end Anotherr

namespace Anotherr

/-! ## One-line source extraction -/

/-- A resolved call frame: the (file, line, function) triple that runtime
symbolization produces for a program counter (spec §4.2). -/
structure ResolvedFrame where
  file : List Char
  line : Nat
  fnName : List Char
  deriving DecidableEq

/-- Modelled from the spec: the file base-name — the path "stripped of
its directory prefix" (`filepath.Base` on the parsed file path, which is
standard-library code outside the repository): the suffix after the last
path separator. -/
def baseName (file : List Char) : List Char :=
  (file.reverse.takeWhile (fun c => c ≠ '/')).reverse

/-- Modelled from the spec: `getOneLineSourceFromPkgStack`
(one_line_source.go lines 57-71) keeps only the topmost frame
(`st = st[:1]`), prints it with `%+v`, and re-parses the printed text
via `parsePrintedStackEntry` / `functionName` — helpers of this
repository that are not under `src/`. Per §4.2 the print/parse round
trip recovers the resolved file (stripped to its base name), line and
function of that topmost frame; symbol resolution is the `resolve`
argument. An empty stack yields not-found. -/
def getOneLineSourceFromPkgStack (resolve : Nat → ResolvedFrame)
    (st : StackTrace) : Option (List Char × Nat × List Char) :=
  match st with
  | [] => none
  | pc :: _ =>
    some (baseName (resolve pc).file, (resolve pc).line,
      (resolve pc).fnName)

/-- A model of an error chain for `GetOneLineSource`: all that matters
per link is whether it implements `StackTraceProvider` (carries a
captured stack) and whether it has a cause. -/
inductive SErr where
  | leaf (stackTr : Option StackTrace)
  | wrap (stackTr : Option StackTrace) (cause : SErr)
  deriving DecidableEq

/-- Embedding of `withstack.GetOneLineSource` (one_line_source.go lines
18-45): recurse into the cause first and keep its result when found
(`ok`); otherwise use this link's own `StackTrace()` when the link is a
provider. (The subsequent `getDetails` probe, one_line_source.go lines
47-55, tests the identical `StackTrace()` interface and so can never
fire once the provider check has failed; it is dead code here.) With no
provider anywhere: not found. -/
def GetOneLineSource (resolve : Nat → ResolvedFrame) :
    SErr → Option (List Char × Nat × List Char)
  | .leaf st =>
    match st with
    | some stack => getOneLineSourceFromPkgStack resolve stack
    | none => none
  | .wrap st c =>
    match GetOneLineSource resolve c with
    | some r => some r
    | none =>
      match st with
      | some stack => getOneLineSourceFromPkgStack resolve stack
      | none => none

/-- The captured stacks carried by the chain's links, innermost (leaf)
first. -/
def stacksInnermostFirst : SErr → List StackTrace
  | .leaf st => st.toList
  | .wrap st c => stacksInnermostFirst c ++ st.toList

/-- What the claim says `GetOneLineSource` computes: the resolved topmost
frame of the innermost link that carries a captured stack, with the file
stripped to its base name; not-found when no link carries a stack. -/
def oneLineSourceSpec (resolve : Nat → ResolvedFrame) (e : SErr) :
    Option (List Char × Nat × List Char) :=
  match stacksInnermostFirst e with
  | [] => none
  | st :: _ =>
    match st with
    | [] => none
    | pc :: _ =>
      some (baseName (resolve pc).file, (resolve pc).line,
        (resolve pc).fnName)

/-- C8: when the captured stacks in the chain are nonempty (a capture
always holds at least the capturing call site), `GetOneLineSource`
returns exactly the resolved topmost frame — file base-name, line,
function — of the innermost stack-carrying link, preferring deeper links,
and reports not-found iff no link carries a stack. -/
theorem GetOneLineSource_innermost (resolve : Nat → ResolvedFrame)
    (e : SErr) (hne : ∀ st ∈ stacksInnermostFirst e, st ≠ []) :
    GetOneLineSource resolve e = oneLineSourceSpec resolve e := by
  induction e with
  | leaf st =>
    cases st with
    | none => rfl
    | some s =>
      have hs : s ≠ [] := hne s (by simp [stacksInnermostFirst])
      cases s with
      | nil => exact absurd rfl hs
      | cons pc rest => rfl
  | wrap st c ih =>
    have hnec : ∀ s ∈ stacksInnermostFirst c, s ≠ [] := fun s hs =>
      hne s (by simp [stacksInnermostFirst, hs])
    have hc := ih hnec
    simp only [GetOneLineSource]
    rw [hc]
    cases hsc : stacksInnermostFirst c with
    | nil =>
      have hspec : oneLineSourceSpec resolve c = none := by
        rw [oneLineSourceSpec, hsc]
      rw [hspec]
      cases st with
      | none =>
        simp [oneLineSourceSpec, stacksInnermostFirst, hsc]
      | some s =>
        have hs : s ≠ [] := hne s (by simp [stacksInnermostFirst, hsc])
        cases s with
        | nil => exact absurd rfl hs
        | cons pc rest =>
          simp [oneLineSourceSpec, stacksInnermostFirst, hsc,
            getOneLineSourceFromPkgStack]
    | cons st0 rest =>
      have hs0 : st0 ≠ [] := hnec st0 (by simp [hsc])
      cases st0 with
      | nil => exact absurd rfl hs0
      | cons pc r2 =>
        have hspec : oneLineSourceSpec resolve c =
            some (baseName (resolve pc).file, (resolve pc).line,
              (resolve pc).fnName) := by
          rw [oneLineSourceSpec, hsc]
        rw [hspec]
        simp [oneLineSourceSpec, stacksInnermostFirst, hsc]

end Anotherr

namespace Anotherr

/-- Resolver used by the C8 witness: program counter 55 is a call site in
`main.load` at `/users/steve/main.go:10`. -/
def exResolve (pc : Nat) : ResolvedFrame :=
  if pc = 55 then
    ⟨("/users/steve/main.go" : String).data, 10, ("main.load" : String).data⟩
  else
    ⟨("/tmp/other.go" : String).data, 99, ("main.outer" : String).data⟩

/-- Witness for C8: in a chain whose outer link carries stack `[100]` and
whose leaf carries stack `[55, 56]`, the extraction uses the innermost
(leaf) stack's topmost frame 55 and strips the directory from the file
name. -/
theorem GetOneLineSource_innermost_witness :
    (∀ st ∈ stacksInnermostFirst
        (SErr.wrap (some [100]) (SErr.leaf (some [55, 56]))), st ≠ []) ∧
    GetOneLineSource exResolve
        (SErr.wrap (some [100]) (SErr.leaf (some [55, 56]))) =
      some (("main.go" : String).data, 10, ("main.load" : String).data) := by
  refine ⟨by decide, ?_⟩
  rw [GetOneLineSource_innermost exResolve _ (by decide)]
  rfl

end Anotherr

namespace Anotherr

/-! ## Khan-style wrapping: `KhanWrap` / `newError`

The `fmt.Println` debug prints in `KhanWrap` (khan.go lines 106, 122,
143) only write to stdout and are not modelled. The stack capture
`callers(depth+1)` is runtime state, passed as the explicit `stk`
argument. -/

mutual
/-- A model of a non-nil Go error value as seen by `KhanWrap`
(khan.go): a `*khanError` (kind, cause, fields, captured stack), an
`errorKind` constant, or any other error (`plain`). -/
inductive KErr where
  | khan (kind : List Char) (cause : KErr)
      (fields : Option (List (List Char × GoVal))) (stk : StackTrace)
  | kindErr (kind : List Char)
  | plain (id : Nat)

/-- A model of a Go `interface{}` argument: a `string`, a non-nil error
value, a `Fields` / `map[string]interface{}` value (ordered key/value
pairs), a `[]interface{}` slice (the `args` value stored by the
odd-length report), or any other value. -/
inductive GoVal where
  | str (s : List Char)
  | errv (e : KErr)
  | fieldsv (f : List (List Char × GoVal))
  | listv (l : List GoVal)
  | other (id : Nat)
end

/-- `errors.Fields = map[string]interface{}` (withfields.go line 17),
modelled as ordered key/value pairs. -/
abbrev Fields := List (List Char × GoVal)

/-- `InternalKind errorKind = "internal error"` (khan.go line 54). -/
def internalKind : List Char := ("internal error" : String).data

/-- `UnspecifiedKind errorKind = "unspecified error"` (khan.go line 87). -/
def unspecifiedKind : List Char := ("unspecified error" : String).data

/-- Go map assignment `f[k] = v` on the assoc-list model: replace an
existing binding or append a new one. -/
def mapSet (f : Fields) (k : List Char) (v : GoVal) : Fields :=
  if f.any (fun p => p.1 == k)
  then f.map (fun p => if p.1 == k then (k, v) else p)
  else f ++ [(k, v)]

/-- The argument-scanning loop of `newError` (khan.go lines 229-241):
`message`, `cause` (defaulting to the kind, which is itself an error
value) and `fields` take the last matching argument; other values are
ignored by the type switch. -/
def newErrorFold (kind : List Char) (args : List GoVal) :
    List Char × KErr × Option Fields :=
  args.foldl
    (fun acc a =>
      match a with
      | .errv e => (acc.1, e, acc.2.2)
      | .str s => (s, acc.2.1, acc.2.2)
      | .fieldsv f => (acc.1, acc.2.1, some f)
      | .listv _ => acc
      | .other _ => acc)
    ([], KErr.kindErr kind, none)

/-- Embedding of `khanWrapWithFieldsAndDepth` (khan.go lines 255-261):
nil in, nil out; otherwise allocate the `khanError`. -/
def khanWrapWithFieldsAndDepth (kind : List Char) (err : Option KErr)
    (fields : Option Fields) (stk : StackTrace) : Option KErr :=
  match err with
  | none => none
  | some e => some (.khan kind e fields stk)

/-- Embedding of `newError` (khan.go lines 224-251): scan the arguments,
then store a nonempty `message` into the fields (allocating the map when
nil), and wrap. -/
def newError (kind : List Char) (args : List GoVal) (stk : StackTrace) :
    Option KErr :=
  let acc := newErrorFold kind args
  let fields :=
    if acc.1 ≠ [] then
      match acc.2.2 with
      | none => some [(("message" : String).data, GoVal.str acc.1)]
      | some f => some (mapSet f ("message" : String).data (GoVal.str acc.1))
    else acc.2.2
  khanWrapWithFieldsAndDepth kind (some acc.2.1) fields stk

/-- The message of the odd-argument report (khan.go line 113). -/
def oddMsg : List Char :=
  ("Passed an odd number of field-args to errors.Wrap()" : String).data

/-- The message of the non-string-key report (khan.go line 127). -/
def nonStringMsg : List Char :=
  ("Passed a non-string key-field to errors.Wrap()" : String).data

/-- The key/value pair loop of `KhanWrap` (khan.go lines 118-131): scan
keys at even indices, stopping at the first non-string key. The
single-element case is unreachable from `KhanWrap` (the odd-length guard
returned earlier; Go would panic indexing `args[i+1]`). -/
def buildFields : List GoVal → Fields → Except GoVal Fields
  | [], acc => .ok acc
  | [a], acc =>
    match a with
    | .str _ => .ok acc
    | _ => .error a
  | a :: v :: rest, acc =>
    match a with
    | .str k => buildFields rest (mapSet acc k v)
    | _ => .error a

/-- Embedding of `KhanWrap` (khan.go lines 100-155). -/
def KhanWrap (err : Option KErr) (args : List GoVal) (stk : StackTrace) :
    Option KErr :=
  match err with
  | none => none
  | some e =>
    if args.length % 2 ≠ 0 then
      newError internalKind
        [GoVal.errv e,
          GoVal.fieldsv [(("fields" : String).data, GoVal.listv args),
            (("message" : String).data, GoVal.str oddMsg)]] stk
    else
      match buildFields args [] with
      | .error badKey =>
        newError internalKind
          [GoVal.errv e,
            GoVal.fieldsv [(("key" : String).data, badKey),
              (("message" : String).data, GoVal.str nonStringMsg)]] stk
      | .ok fields =>
        match e with
        | .khan kind cause f st =>
          if kind = unspecifiedKind then newError internalKind args stk
          else newError kind
            [GoVal.errv (.khan kind cause f st), GoVal.fieldsv fields] stk
        | .kindErr k => newError k [GoVal.fieldsv fields] stk
        | .plain i =>
          newError internalKind
            [GoVal.errv (.plain i), GoVal.fieldsv fields] stk

/-- The `kind` field of a wrapped result, when it is a `*khanError`. -/
def kindOfRes : Option KErr → Option (List Char)
  | some (.khan k _ _ _) => some k
  | _ => none

/-- The `cause` field of a wrapped result, when it is a `*khanError`. -/
def causeOfRes : Option KErr → Option KErr
  | some (.khan _ c _ _) => some c
  | _ => none

/-- The `fields` of a wrapped result, when it is a `*khanError`. -/
def fieldsOfRes : Option KErr → Option Fields
  | some (.khan _ _ f _) => f
  | _ => none

/-- The unwrap chain of a modelled value: `*khanError` exposes its cause
(`Cause`/`Unwrap`, khan.go lines 267-268); the other shapes are leaves. -/
def kchain : KErr → List KErr
  | .khan k c f st => .khan k c f st :: kchain c
  | .kindErr k => [.kindErr k]
  | .plain i => [.plain i]

/-- "Some even-indexed key argument is not a string". -/
def hasNonStringKey (args : List GoVal) : Prop :=
  ∃ i, i < args.length ∧ i % 2 = 0 ∧
    ∀ s, args.getD i (GoVal.other 0) ≠ GoVal.str s

end Anotherr

namespace Anotherr

/-- `newError` never returns nil: its `cause` argument is always a value
(it defaults to the kind, itself an error value). -/
theorem newError_ne_none (kind : List Char) (args : List GoVal)
    (stk : StackTrace) : newError kind args stk ≠ none := by
  simp only [newError, khanWrapWithFieldsAndDepth]
  exact Option.some_ne_none _

/-- Every value heads its own chain. -/
theorem self_mem_kchain (e : KErr) : e ∈ kchain e := by
  cases e <;> simp [kchain]

theorem buildFields_error_of_nonstring (args : List GoVal) :
    ∀ acc : Fields, args.length % 2 = 0 → hasNonStringKey args →
      ∃ b, buildFields args acc = .error b := by
  match args with
  | [] =>
    intro acc _ h
    obtain ⟨i, hi, _⟩ := h
    simp at hi
  | [a] =>
    intro acc heven _
    simp at heven
  | a :: v :: rest =>
    intro acc heven h
    match a with
    | .str k =>
      obtain ⟨i, hi, hieven, hins⟩ := h
      match i with
      | 0 => exact (hins k rfl).elim
      | 1 => simp at hieven
      | n + 2 =>
        have hrest : hasNonStringKey rest := by
          refine ⟨n, ?_, by omega, ?_⟩
          · simpa using hi
          · intro s
            simpa [List.getD_cons_succ] using hins s
        have heven' : rest.length % 2 = 0 := by
          simp at heven
          omega
        obtain ⟨b, hb⟩ :=
          buildFields_error_of_nonstring rest (mapSet acc k v) heven' hrest
        exact ⟨b, by rw [buildFields, hb]⟩
    | .errv e2 => exact ⟨.errv e2, rfl⟩
    | .fieldsv f => exact ⟨.fieldsv f, rfl⟩
    | .listv l => exact ⟨.listv l, rfl⟩
    | .other n => exact ⟨.other n, rfl⟩

end Anotherr

namespace Anotherr

/-- C10: `KhanWrap` of a nil error is nil; of a non-nil error it always
returns a non-nil error (the model is total — no panic); and when the
arguments are malformed (odd length, or some even-indexed key argument
is not a string) the result is a `*khanError` of kind `InternalKind`
whose direct cause is the original error — so the original error remains
a link of the result's cause chain — with a nonempty report attached in
its fields. -/
theorem KhanWrap_malformed_args (e : KErr) (args : List GoVal)
    (stk : StackTrace) :
    KhanWrap none args stk = none ∧
    KhanWrap (some e) args stk ≠ none ∧
    ((args.length % 2 = 1 ∨ hasNonStringKey args) →
      kindOfRes (KhanWrap (some e) args stk) = some internalKind ∧
      causeOfRes (KhanWrap (some e) args stk) = some e ∧
      e ∈ (KhanWrap (some e) args stk).elim [] kchain ∧
      (fieldsOfRes (KhanWrap (some e) args stk)).getD [] ≠ []) := by
  refine ⟨rfl, ?_, ?_⟩
  · simp only [KhanWrap]
    split
    · exact newError_ne_none _ _ _
    · split
      · exact newError_ne_none _ _ _
      · cases e with
        | khan k c f st =>
          by_cases hu : k = unspecifiedKind
          · simp only [if_pos hu]
            exact newError_ne_none _ _ _
          · simp only [if_neg hu]
            exact newError_ne_none _ _ _
        | kindErr k => exact newError_ne_none _ _ _
        | plain i => exact newError_ne_none _ _ _
  · intro h
    by_cases hpar : args.length % 2 = 0
    · have hkey : hasNonStringKey args := by
        rcases h with hodd | hkey
        · omega
        · exact hkey
      obtain ⟨b, hb⟩ := buildFields_error_of_nonstring args [] hpar hkey
      have hres : KhanWrap (some e) args stk =
          newError internalKind
            [GoVal.errv e,
              GoVal.fieldsv [(("key" : String).data, b),
                (("message" : String).data, GoVal.str nonStringMsg)]] stk := by
        simp only [KhanWrap, hpar, ne_eq, not_true_eq_false, if_false, hb]
      rw [hres]
      refine ⟨?_, ?_, ?_, ?_⟩
      · rfl
      · rfl
      · exact List.mem_cons_of_mem _ (self_mem_kchain e)
      · simp [newError, newErrorFold, khanWrapWithFieldsAndDepth,
          fieldsOfRes]
    · have hres : KhanWrap (some e) args stk =
          newError internalKind
            [GoVal.errv e,
              GoVal.fieldsv [(("fields" : String).data, GoVal.listv args),
                (("message" : String).data, GoVal.str oddMsg)]] stk := by
        simp only [KhanWrap, ne_eq, hpar, not_false_eq_true, if_true]
      rw [hres]
      refine ⟨?_, ?_, ?_, ?_⟩
      · rfl
      · rfl
      · exact List.mem_cons_of_mem _ (self_mem_kchain e)
      · simp [newError, newErrorFold, khanWrapWithFieldsAndDepth,
          fieldsOfRes]

end Anotherr

namespace Anotherr

/-- Witness for C10: wrapping a plain error with the odd argument list
`["k"]` yields a non-nil `*khanError` of kind `InternalKind` whose cause
chain still contains the original error; wrapping nil yields nil. -/
theorem KhanWrap_malformed_args_witness :
    KhanWrap none [GoVal.str ("k" : String).data] [5] = none ∧
    KhanWrap (some (KErr.plain 7)) [GoVal.str ("k" : String).data] [5] ≠
      none ∧
    kindOfRes (KhanWrap (some (KErr.plain 7))
      [GoVal.str ("k" : String).data] [5]) = some internalKind ∧
    causeOfRes (KhanWrap (some (KErr.plain 7))
      [GoVal.str ("k" : String).data] [5]) = some (KErr.plain 7) ∧
    KErr.plain 7 ∈ (KhanWrap (some (KErr.plain 7))
      [GoVal.str ("k" : String).data] [5]).elim [] kchain := by
  have h := KhanWrap_malformed_args (KErr.plain 7)
    [GoVal.str ("k" : String).data] [5]
  have hm := h.2.2 (Or.inl rfl)
  exact ⟨h.1, h.2.1, hm.1, hm.2.1, hm.2.2.1⟩

end Anotherr
